import Mathlib

/-!
Shallow embedding of the event-driven pairs backtester core
(src/portfolio.py, src/broker.py, src/strategy.py, src/run.py).

Prices and cash are modelled as exact rationals; Python `int(x // y)` on
floats is modelled as `Int.floor` of the rational quotient.  Python
exceptions (`raise ValueError`) are modelled with `Except String`.
Bar dates are modelled by their index in the bar sequence.
-/

namespace Backtester

/-- `RiskLimits` dataclass from src/portfolio.py (plain record, no validation). -/
structure RiskLimits where
  max_position_pct : ℚ
  max_drawdown : ℚ
deriving DecidableEq, Repr

/-- Trade side strings "BUY" / "SELL". -/
inductive Side where
  | BUY
  | SELL
deriving DecidableEq, Repr

/-- `Trade` dataclass from src/portfolio.py. -/
structure Trade where
  date : ℕ
  side : Side
  qty : ℤ
  price : ℚ
  notional : ℚ
  commission : ℚ
deriving DecidableEq, Repr

/-- One row of the `equity_curve` list built by `Portfolio.mark_to_market`. -/
structure EquitySnapshot where
  date : ℕ
  cash : ℚ
  positionQty : ℤ
  close : ℚ
  equity : ℚ
  drawdown : ℚ
  killSwitch : Bool
deriving DecidableEq, Repr

/-- The mutable state of the `Portfolio` class from src/portfolio.py. -/
structure Portfolio where
  initial_cash : ℚ
  cash : ℚ
  position_qty : ℤ
  limits : RiskLimits
  trades : List Trade
  equity_curve : List EquitySnapshot
  peak_equity : ℚ
  kill_switch : Bool
deriving DecidableEq, Repr

/-- `Portfolio.__init__`: raises ValueError when `initial_cash <= 0`,
otherwise sets up the fresh state.  The `limits` argument is stored as-is,
with no validation of its fields. -/
def mkPortfolio (initial_cash : ℚ) (limits : RiskLimits) : Except String Portfolio :=
  if initial_cash ≤ 0 then .error "initial_cash must be > 0"
  else .ok
    { initial_cash := initial_cash
      cash := initial_cash
      position_qty := 0
      limits := limits
      trades := []
      equity_curve := []
      peak_equity := initial_cash
      kill_switch := false }

/-- `Portfolio.mark_to_market`: computes equity at the close, updates the
running peak, the drawdown, possibly trips the kill switch, and appends one
`EquitySnapshot`. -/
def markToMarket (p : Portfolio) (date : ℕ) (close_price : ℚ) : Portfolio :=
  let equity := p.cash + (p.position_qty : ℚ) * close_price
  let peak := max p.peak_equity equity
  let dd : ℚ := if peak = 0 then 0 else (peak - equity) / peak
  let kill := if p.limits.max_drawdown ≤ dd then true else p.kill_switch
  { p with
    peak_equity := peak
    kill_switch := kill
    equity_curve := p.equity_curve ++
      [{ date := date
         cash := p.cash
         positionQty := p.position_qty
         close := close_price
         equity := equity
         drawdown := dd
         killSwitch := kill }] }

/-- `Portfolio._max_allowed_qty`: `int((max_position_pct * equity) // price)`. -/
def Portfolio.maxAllowedQty (p : Portfolio) (equity price : ℚ) : ℤ :=
  let max_pos_value := p.limits.max_position_pct * equity
  ⌊max_pos_value / price⌋

/-- `Portfolio.rebalance_to_target` from src/portfolio.py.  Returns the
updated portfolio state together with the executed trade (if any); the
`ValueError` on an out-of-range target becomes `.error`. -/
def rebalanceToTarget (p : Portfolio) (date : ℕ) (target_position : ℤ)
    (open_price fill_price commission : ℚ) :
    Except String (Portfolio × Option Trade) :=
  if p.kill_switch then .ok (p, none)
  else
    let equity := p.cash + (p.position_qty : ℚ) * open_price
    if target_position ≠ 0 ∧ target_position ≠ 1 then
      .error "target_position must be 0 or 1 for long-only"
    else
      let desired_qty : ℤ :=
        if target_position = 1 then p.maxAllowedQty equity open_price else 0
      let delta := desired_qty - p.position_qty
      if delta = 0 then .ok (p, none)
      else if 0 < delta then
        -- BUY
        let qty := delta
        let notional := (qty : ℚ) * fill_price
        let total_cost := notional + commission
        if p.cash < total_cost then
          let affordable_qty : ℤ := ⌊(p.cash - commission) / fill_price⌋
          if affordable_qty ≤ 0 then .ok (p, none)
          else
            let qty := affordable_qty
            let notional := (qty : ℚ) * fill_price
            let total_cost := notional + commission
            let t : Trade :=
              { date := date, side := .BUY, qty := qty, price := fill_price
                notional := notional, commission := commission }
            .ok ({ p with
                    cash := p.cash - total_cost
                    position_qty := p.position_qty + qty
                    trades := p.trades ++ [t] }, some t)
        else
          let t : Trade :=
            { date := date, side := .BUY, qty := qty, price := fill_price
              notional := notional, commission := commission }
          .ok ({ p with
                  cash := p.cash - total_cost
                  position_qty := p.position_qty + qty
                  trades := p.trades ++ [t] }, some t)
      else
        -- SELL
        let qty := -delta
        let notional := (qty : ℚ) * fill_price
        let t : Trade :=
          { date := date, side := .SELL, qty := qty, price := fill_price
            notional := notional, commission := commission }
        .ok ({ p with
                cash := p.cash + notional - commission
                position_qty := p.position_qty - qty
                trades := p.trades ++ [t] }, some t)

/-- `ExecutionModel` dataclass from src/broker.py. -/
structure ExecutionModel where
  slippage_bps : ℚ
  commission : ℚ
deriving DecidableEq, Repr

/-- `apply_slippage` from src/broker.py: raises on non-positive price,
otherwise `price * (1 + slippage_bps/10000 * side)`. -/
def applySlippage (price : ℚ) (side : ℤ) (slippage_bps : ℚ) : Except String ℚ :=
  if price ≤ 0 then .error "Price must be > 0"
  else
    let slip := slippage_bps / 10000
    .ok (price * (1 + slip * (side : ℚ)))

/-- `simulate_fill` from src/broker.py: raises on non-positive qty, then
returns the slipped fill price together with the fixed commission. -/
def simulateFill (open_price_next : ℚ) (side : ℤ) (qty : ℤ)
    (model : ExecutionModel) : Except String (ℚ × ℚ) :=
  if qty ≤ 0 then .error "qty must be positive"
  else (applySlippage open_price_next side model.slippage_bps).map
    (fun fill_px => (fill_px, model.commission))

/-- `MACrossoverParams` dataclass from src/strategy.py. -/
structure MACrossoverParams where
  fast : ℕ
  slow : ℕ
deriving DecidableEq, Repr

/-- Trailing simple moving average, `close.rolling(w, min_periods=w).mean()`
at position `i`: defined exactly when the window is full (`w ≤ i + 1`, `w > 0`),
taking the mean of `closes[i+1-w .. i]`. -/
def maAt (closes : List ℚ) (window : ℕ) (i : ℕ) : Option ℚ :=
  if 0 < window ∧ window ≤ i + 1 then
    some (((closes.drop (i + 1 - window)).take window).sum / (window : ℚ))
  else none

/-- Element-wise pandas `>` on possibly-undefined values: any comparison
with NaN is False. -/
def pdGt : Option ℚ → Option ℚ → Bool
  | some a, some b => decide (b < a)
  | _, _ => false

/-- Element-wise pandas `==` on possibly-undefined values: NaN equals
nothing, including itself. -/
def pdEq : Option ℚ → Option ℚ → Bool
  | some a, some b => decide (a = b)
  | _, _ => false

/-- One entry of `generate_ma_crossover_signals` from src/strategy.py:
`raw = (fast_ma > slow_ma).astype(int)`; in long/short mode
`raw.replace({0: -1})` followed by `raw[fast_ma == slow_ma] = 0`. -/
def signalAt (long_only : Bool) (params : MACrossoverParams)
    (closes : List ℚ) (i : ℕ) : ℤ :=
  let fast_ma := maAt closes params.fast i
  let slow_ma := maAt closes params.slow i
  let raw : ℤ := if pdGt fast_ma slow_ma then 1 else 0
  if long_only then raw
  else
    let raw2 : ℤ := if raw = 0 then -1 else raw
    if pdEq fast_ma slow_ma then 0 else raw2

/-- `generate_ma_crossover_signals`: the full target-position series,
aligned 1:1 with the bar sequence. -/
def generateMACrossoverSignals (closes : List ℚ) (params : MACrossoverParams)
    (long_only : Bool) : List ℤ :=
  (List.range closes.length).map (signalAt long_only params closes)

/-- One bar of input data, reduced to the fields the simulation loop reads. -/
structure Bar where
  open_px : ℚ
  close : ℚ
deriving DecidableEq, Repr

/-- The desired-quantity sizing recomputed inline in the simulation loop
(src/run.py line 92): `int((limits.max_position_pct * equity) // open_px)`. -/
def loopMaxQty (limits : RiskLimits) (equity open_px : ℚ) : ℤ :=
  ⌊(limits.max_position_pct * equity) / open_px⌋

/-- One iteration of the event-driven loop in `main` (src/run.py lines
71-107): mark-to-market at the close, execute the pending target at the
open (when one exists and the kill switch is off), then store this bar's
signal (NaN mapped to 0) as the next pending target. -/
def runStep (em : ExecutionModel) (limits : RiskLimits) (p : Portfolio)
    (pending : Option ℤ) (i : ℕ) (bar : Bar) (tgt : Option ℤ) :
    Except String (Portfolio × Option ℤ) :=
  let p1 := markToMarket p i bar.close
  let next : Option ℤ := some (tgt.getD 0)
  match pending with
  | none => .ok (p1, next)
  | some pt =>
    if p1.kill_switch then .ok (p1, next)
    else
      let open_px := bar.open_px
      let equity := p1.cash + (p1.position_qty : ℚ) * open_px
      let max_qty : ℤ := loopMaxQty limits equity open_px
      let desired_qty : ℤ := if pt = 1 then max_qty else 0
      let delta := desired_qty - p1.position_qty
      if delta = 0 then .ok (p1, next)
      else
        let side : ℤ := if 0 < delta then 1 else -1
        match simulateFill open_px side |delta| em with
        | .error e => .error e
        | .ok (fill_px, comm) =>
          match rebalanceToTarget p1 i pt open_px fill_px comm with
          | .error e => .error e
          | .ok (p2, _) => .ok (p2, next)

/-- The simulation loop over a list of (bar, signal) rows, carrying the
portfolio and the pending target, starting at bar index `i`. -/
def runPartial (em : ExecutionModel) (limits : RiskLimits) :
    Portfolio → Option ℤ → ℕ → List (Bar × Option ℤ) →
    Except String (Portfolio × Option ℤ)
  | p, pending, _, [] => .ok (p, pending)
  | p, pending, i, (bar, tgt) :: rest =>
    match runStep em limits p pending i bar tgt with
    | .error e => .error e
    | .ok (p', pending') => runPartial em limits p' pending' (i + 1) rest

/-- The full run as `main` performs it: `pending_target = None`, bar
indices from 0; the final pending target is discarded. -/
def runLoop (em : ExecutionModel) (limits : RiskLimits) (p : Portfolio)
    (rows : List (Bar × Option ℤ)) : Except String Portfolio :=
  (runPartial em limits p none 0 rows).map Prod.fst

/-! ### Structural lemmas about the portfolio operations -/

theorem rebalance_of_kill (p : Portfolio) (d : ℕ) (tp : ℤ) (o f c : ℚ)
    (h : p.kill_switch = true) :
    rebalanceToTarget p d tp o f c = .ok (p, none) := by
  simp [rebalanceToTarget, h]

theorem mtm_cash (p : Portfolio) (d : ℕ) (c : ℚ) :
    (markToMarket p d c).cash = p.cash := rfl

theorem mtm_position (p : Portfolio) (d : ℕ) (c : ℚ) :
    (markToMarket p d c).position_qty = p.position_qty := rfl

theorem mtm_trades (p : Portfolio) (d : ℕ) (c : ℚ) :
    (markToMarket p d c).trades = p.trades := rfl

theorem mtm_kill_mono (p : Portfolio) (d : ℕ) (c : ℚ)
    (h : p.kill_switch = true) : (markToMarket p d c).kill_switch = true := by
  simp only [markToMarket]
  split <;> simp [h]

theorem mtm_curve (p : Portfolio) (d : ℕ) (c : ℚ) :
    ∃ s : EquitySnapshot,
      (markToMarket p d c).equity_curve = p.equity_curve ++ [s] ∧
      s.date = d ∧ s.close = c ∧ s.cash = p.cash ∧
      s.positionQty = p.position_qty ∧
      s.killSwitch = (markToMarket p d c).kill_switch := by
  refine ⟨_, rfl, rfl, rfl, rfl, rfl, rfl⟩

theorem rebalance_ok_frame (p : Portfolio) (d : ℕ) (tp : ℤ) (o f c : ℚ)
    (p' : Portfolio) (tr : Option Trade)
    (h : rebalanceToTarget p d tp o f c = .ok (p', tr)) :
    p'.equity_curve = p.equity_curve ∧
    p'.kill_switch = p.kill_switch ∧
    p'.limits = p.limits ∧
    p'.peak_equity = p.peak_equity ∧
    p'.initial_cash = p.initial_cash ∧
    ∃ ts : List Trade, p'.trades = p.trades ++ ts ∧ ∀ t ∈ ts, t.date = d := by
  simp only [rebalanceToTarget] at h
  split_ifs at h <;>
  first
  | exact Except.noConfusion h
  | · rw [Except.ok.injEq, Prod.mk.injEq] at h
      obtain ⟨hp, htr⟩ := h
      subst hp
      refine ⟨rfl, rfl, rfl, rfl, rfl, ?_⟩
      first
      | exact ⟨[], (List.append_nil _).symm, by simp⟩
      | · refine ⟨[_], rfl, ?_⟩
          intro t ht
          rw [List.mem_singleton] at ht
          subst ht
          rfl

theorem runStep_mtm_only (p : Portfolio) (i : ℕ) (c : ℚ) :
    ∃ s : EquitySnapshot,
      (markToMarket p i c).equity_curve = p.equity_curve ++ [s] ∧
      s.date = i ∧ s.close = c ∧ s.cash = p.cash ∧
      s.positionQty = p.position_qty ∧
      s.killSwitch = (markToMarket p i c).kill_switch ∧
      ∃ ts : List Trade, (markToMarket p i c).trades = p.trades ++ ts ∧
        ∀ t ∈ ts, t.date = i ∧ s.killSwitch = false := by
  obtain ⟨s, hcurve, hdate, hclose, hcash, hpos, hkills⟩ := mtm_curve p i c
  exact ⟨s, hcurve, hdate, hclose, hcash, hpos, hkills,
    [], by simp [markToMarket], by simp⟩

theorem runStep_ok_spec (em : ExecutionModel) (limits : RiskLimits) (p : Portfolio)
    (pd : Option ℤ) (i : ℕ) (bar : Bar) (tgt : Option ℤ)
    (p' : Portfolio) (pd' : Option ℤ)
    (h : runStep em limits p pd i bar tgt = .ok (p', pd')) :
    pd' = some (tgt.getD 0) ∧
    (p.kill_switch = true → p'.kill_switch = true) ∧
    ∃ s : EquitySnapshot,
      p'.equity_curve = p.equity_curve ++ [s] ∧
      s.date = i ∧ s.close = bar.close ∧ s.cash = p.cash ∧
      s.positionQty = p.position_qty ∧
      s.killSwitch = p'.kill_switch ∧
      ∃ ts : List Trade, p'.trades = p.trades ++ ts ∧
        ∀ t ∈ ts, t.date = i ∧ s.killSwitch = false := by
  unfold runStep at h
  simp only at h
  set p1 := markToMarket p i bar.close with hp1
  cases pd with
  | none =>
    simp only at h
    rw [Except.ok.injEq, Prod.mk.injEq] at h
    obtain ⟨hp, hpd⟩ := h
    subst hp
    subst hpd
    exact ⟨rfl, fun hk => mtm_kill_mono p i bar.close hk, runStep_mtm_only p i bar.close⟩
  | some pt =>
    simp only at h
    by_cases hk1 : p1.kill_switch = true
    · rw [if_pos hk1] at h
      rw [Except.ok.injEq, Prod.mk.injEq] at h
      obtain ⟨hp, hpd⟩ := h
      subst hp
      subst hpd
      exact ⟨rfl, fun hk => mtm_kill_mono p i bar.close hk, runStep_mtm_only p i bar.close⟩
    · rw [if_neg hk1] at h
      set dq : ℤ := (if pt = 1 then
          loopMaxQty limits (p1.cash + (p1.position_qty : ℚ) * bar.open_px) bar.open_px
        else 0) - p1.position_qty with hdq
      by_cases hd : dq = 0
      · rw [if_pos hd] at h
        rw [Except.ok.injEq, Prod.mk.injEq] at h
        obtain ⟨hp, hpd⟩ := h
        subst hp
        subst hpd
        exact ⟨rfl, fun hk => mtm_kill_mono p i bar.close hk, runStep_mtm_only p i bar.close⟩
      · rw [if_neg hd] at h
        cases hsf : simulateFill bar.open_px (if 0 < dq then 1 else -1) |dq| em with
        | error e =>
          rw [hsf] at h
          simp only at h
          exact Except.noConfusion h
        | ok fc =>
          rw [hsf] at h
          obtain ⟨fill_px, comm⟩ := fc
          simp only at h
          cases hrb : rebalanceToTarget p1 i pt bar.open_px fill_px comm with
          | error e =>
            rw [hrb] at h
            simp only at h
            exact Except.noConfusion h
          | ok pr =>
            rw [hrb] at h
            obtain ⟨p2, tr⟩ := pr
            simp only at h
            rw [Except.ok.injEq, Prod.mk.injEq] at h
            obtain ⟨hp, hpd⟩ := h
            subst hp
            subst hpd
            obtain ⟨hc2, hk2, _, _, _, ts, hts, htsd⟩ :=
              rebalance_ok_frame _ _ _ _ _ _ _ _ hrb
            obtain ⟨s, hcurve, hdate, hclose, hcash, hpos, hkills⟩ := mtm_curve p i bar.close
            have hk1' : p1.kill_switch = false := by
              rw [Bool.not_eq_true] at hk1
              exact hk1
            refine ⟨rfl, ?_, s, ?_, hdate, hclose, hcash, hpos, ?_, ts, ?_, ?_⟩
            · intro hk
              have hm : p1.kill_switch = true := mtm_kill_mono p i bar.close hk
              rw [hm] at hk1'
              exact Bool.noConfusion hk1'
            · rw [hc2]
              exact hcurve
            · rw [hkills, hk2, hp1]
            · rw [hts]
              exact congrArg (fun l => l ++ ts) (mtm_trades p i bar.close)
            · intro t ht
              refine ⟨htsd t ht, ?_⟩
              rw [hkills]
              exact hk1'

theorem runPartial_nil (em : ExecutionModel) (limits : RiskLimits) (p : Portfolio)
    (pd : Option ℤ) (i : ℕ) :
    runPartial em limits p pd i [] = .ok (p, pd) := rfl

theorem runPartial_cons (em : ExecutionModel) (limits : RiskLimits) (p : Portfolio)
    (pd : Option ℤ) (i : ℕ) (bar : Bar) (tgt : Option ℤ)
    (rest : List (Bar × Option ℤ)) :
    runPartial em limits p pd i ((bar, tgt) :: rest) =
      match runStep em limits p pd i bar tgt with
      | .error e => .error e
      | .ok (p', pd') => runPartial em limits p' pd' (i + 1) rest := rfl

theorem runPartial_append (em : ExecutionModel) (limits : RiskLimits)
    (xs ys : List (Bar × Option ℤ)) :
    ∀ (p : Portfolio) (pd : Option ℤ) (i : ℕ),
    runPartial em limits p pd i (xs ++ ys) =
      match runPartial em limits p pd i xs with
      | .error e => .error e
      | .ok (q, pd') => runPartial em limits q pd' (i + xs.length) ys := by
  induction xs with
  | nil =>
    intro p pd i
    simp [runPartial_nil]
  | cons hd tl ih =>
    intro p pd i
    obtain ⟨bar, tgt⟩ := hd
    rw [List.cons_append, runPartial_cons, runPartial_cons]
    cases h : runStep em limits p pd i bar tgt with
    | error e => rfl
    | ok r =>
      obtain ⟨p', pd'⟩ := r
      simp only
      rw [ih p' pd' (i + 1)]
      have hlen : i + 1 + tl.length = i + ((bar, tgt) :: tl).length := by
        simp [List.length_cons]
        omega
      rw [hlen]

theorem runPartial_ok_pending (em : ExecutionModel) (limits : RiskLimits) :
    ∀ (rows : List (Bar × Option ℤ)) (p : Portfolio) (pd : Option ℤ) (i : ℕ)
      (q : Portfolio) (pd' : Option ℤ),
      runPartial em limits p pd i rows = .ok (q, pd') → rows ≠ [] →
      ∃ r : Bar × Option ℤ, rows.getLast? = some r ∧ pd' = some ((r.2).getD 0) := by
  intro rows
  induction rows with
  | nil =>
    intro p pd i q pd' _ hne
    exact absurd rfl hne
  | cons hd tl ih =>
    intro p pd i q pd' h _
    obtain ⟨bar, tgt⟩ := hd
    rw [runPartial_cons] at h
    cases hs : runStep em limits p pd i bar tgt with
    | error e =>
      rw [hs] at h
      exact Except.noConfusion h
    | ok r =>
      rw [hs] at h
      obtain ⟨p1, pd1⟩ := r
      simp only at h
      cases tl with
      | nil =>
        rw [runPartial_nil] at h
        rw [Except.ok.injEq, Prod.mk.injEq] at h
        obtain ⟨hq, hpd⟩ := h
        obtain ⟨hnext, _⟩ := runStep_ok_spec em limits p pd i bar tgt p1 pd1 hs
        exact ⟨(bar, tgt), rfl, hpd ▸ hnext⟩
      | cons b l =>
        obtain ⟨r, hlast, hpd⟩ := ih p1 pd1 (i + 1) q pd' h (by simp)
        exact ⟨r, by rw [List.getLast?_cons_cons]; exact hlast, hpd⟩

/-- Master invariant of the simulation loop: the run appends one snapshot
per bar with consecutive dates and that bar's close, appends trades only at
bar dates within the processed range, never trades or un-trips once the
kill switch is on, and records a monotone kill-switch column. -/
theorem runPartial_facts (em : ExecutionModel) (limits : RiskLimits) :
    ∀ (rows : List (Bar × Option ℤ)) (p : Portfolio) (pd : Option ℤ) (i0 : ℕ)
      (q : Portfolio) (pd' : Option ℤ),
    runPartial em limits p pd i0 rows = .ok (q, pd') →
    ∃ (snaps : List EquitySnapshot) (tns : List Trade),
      q.equity_curve = p.equity_curve ++ snaps ∧
      q.trades = p.trades ++ tns ∧
      snaps.length = rows.length ∧
      (∀ (j : ℕ) (s : EquitySnapshot), snaps.get? j = some s →
        s.date = i0 + j ∧
        (rows.get? j).map (fun r => r.1.close) = some s.close ∧
        (s.killSwitch = true →
          q.kill_switch = true ∧
          (∀ (k : ℕ) (s' : EquitySnapshot), j ≤ k → snaps.get? k = some s' →
            s'.killSwitch = true) ∧
          (∀ t ∈ tns, t.date < i0 + j))) ∧
      (p.kill_switch = true →
        q.kill_switch = true ∧ tns = [] ∧
        (∀ (j : ℕ) (s : EquitySnapshot), snaps.get? j = some s →
          s.killSwitch = true)) ∧
      (∀ t ∈ tns, i0 ≤ t.date ∧ t.date < i0 + rows.length) := by
  intro rows
  induction rows with
  | nil =>
    intro p pd i0 q pd' h
    rw [runPartial_nil, Except.ok.injEq, Prod.mk.injEq] at h
    obtain ⟨hq, _⟩ := h
    subst hq
    refine ⟨[], [], by simp, by simp, rfl, ?_, ?_, ?_⟩
    · intro j s hj
      simp at hj
    · intro hk
      refine ⟨hk, rfl, ?_⟩
      intro j s hj
      simp at hj
    · intro t ht
      simp at ht
  | cons hd tl ih =>
    intro p pd i0 q pd' h
    obtain ⟨bar, tgt⟩ := hd
    rw [runPartial_cons] at h
    cases hs : runStep em limits p pd i0 bar tgt with
    | error e =>
      rw [hs] at h
      exact Except.noConfusion h
    | ok r =>
      rw [hs] at h
      obtain ⟨p1, pd1⟩ := r
      simp only at h
      obtain ⟨_, hkmono, s, hcurve1, hsdate, hsclose, hscash, hspos, hskill, ts0, hts0, hts0d⟩ :=
        runStep_ok_spec em limits p pd i0 bar tgt p1 pd1 hs
      obtain ⟨snaps, tns, hcurve, htrades, hlen, hidx, hpkill, hrange⟩ :=
        ih p1 pd1 (i0 + 1) q pd' h
      refine ⟨s :: snaps, ts0 ++ tns, ?_, ?_, by simp [hlen], ?_, ?_, ?_⟩
      · rw [hcurve, hcurve1, List.append_assoc]
        rfl
      · rw [htrades, hts0, List.append_assoc]
      · -- per-index facts
        intro j s' hj
        cases j with
        | zero =>
          rw [List.get?_cons_zero, Option.some_inj] at hj
          subst hj
          refine ⟨by simpa using hsdate, by simp [hsclose], ?_⟩
          intro hskt
          -- the snapshot of this very bar records the post-mark kill state,
          -- which equals p1.kill_switch
          have hp1k : p1.kill_switch = true := by rw [← hskill]; exact hskt
          obtain ⟨hqk, htns, hsnapsk⟩ := hpkill hp1k
          refine ⟨hqk, ?_, ?_⟩
          · intro k s'' _ hk
            cases k with
            | zero =>
              rw [List.get?_cons_zero, Option.some_inj] at hk
              subst hk
              exact hskt
            | succ k' =>
              rw [List.get?_cons_succ] at hk
              exact hsnapsk k' s'' hk
          · intro t ht
            rw [htns, List.append_nil] at ht
            have := hts0d t ht
            rw [this.2] at hskt
            exact Bool.noConfusion hskt
        | succ j' =>
          rw [List.get?_cons_succ] at hj
          obtain ⟨hdate', hclose', hkill'⟩ := hidx j' s' hj
          refine ⟨by rw [hdate']; omega, by simpa using hclose', ?_⟩
          intro hskt
          obtain ⟨hqk, hmono', htdate'⟩ := hkill' hskt
          refine ⟨hqk, ?_, ?_⟩
          · intro k s'' hjk hk
            cases k with
            | zero => omega
            | succ k' =>
              rw [List.get?_cons_succ] at hk
              exact hmono' k' s'' (by omega) hk
          · intro t ht
            rw [List.mem_append] at ht
            cases ht with
            | inl ht0 =>
              have := (hts0d t ht0).1
              omega
            | inr htn =>
              have := htdate' t htn
              omega
      · -- entering with the kill switch already on
        intro hk
        have hp1k : p1.kill_switch = true := hkmono hk
        obtain ⟨hqk, htns, hsnapsk⟩ := hpkill hp1k
        have hts0nil : ts0 = [] := by
          cases hts0e : ts0 with
          | nil => rfl
          | cons t l =>
            have ht : t ∈ ts0 := by rw [hts0e]; exact List.mem_cons_self t l
            have := (hts0d t ht).2
            rw [hskill, hp1k] at this
            exact Bool.noConfusion this
        refine ⟨hqk, by simp [hts0nil, htns], ?_⟩
        intro j s' hj
        cases j with
        | zero =>
          rw [List.get?_cons_zero, Option.some_inj] at hj
          subst hj
          rw [hskill]
          exact hp1k
        | succ j' =>
          rw [List.get?_cons_succ] at hj
          exact hsnapsk j' s' hj
      · -- trade date range
        intro t ht
        rw [List.mem_append] at ht
        cases ht with
        | inl ht0 =>
          have := (hts0d t ht0).1
          rw [List.length_cons]
          omega
        | inr htn =>
          have := hrange t htn
          rw [List.length_cons]
          omega

/-! ### Claim theorems -/

/-- C10: with the kill switch on, `rebalance_to_target` returns none for
every `target_position` value — even values outside {0, 1} — raising no
error and leaving the whole state (in particular cash and position_qty)
unchanged: the kill-switch check precedes the target validation. -/
theorem C10_kill_switch_precedes_validation
    (p : Portfolio) (d : ℕ) (tp : ℤ) (o f c : ℚ)
    (h : p.kill_switch = true) :
    rebalanceToTarget p d tp o f c = .ok (p, none) :=
  rebalance_of_kill p d tp o f c h

def killedPortfolio : Portfolio :=
  { initial_cash := 100, cash := 50, position_qty := 2,
    limits := { max_position_pct := 1/4, max_drawdown := 1/5 },
    trades := [], equity_curve := [], peak_equity := 100, kill_switch := true }

/-- C10 witness: a tripped portfolio, target 7 (outside {0,1}): no error,
state returned unchanged. -/
theorem C10_witness :
    rebalanceToTarget killedPortfolio 3 7 10 11 1 = .ok (killedPortfolio, none) :=
  C10_kill_switch_precedes_validation killedPortfolio 3 7 10 11 1 rfl

/-- C6: `apply_slippage` computes `price * (1 + slippage_bps/10000 * side)`
for every positive reference price, every side and every slippage_bps; in
particular a BUY (side = +1) with 200 bps at price 100 fills at exactly 102
and a SELL (side = -1) at exactly 98. -/
theorem C6_slippage_formula :
    (∀ (price : ℚ) (side : ℤ) (bps : ℚ), 0 < price →
      applySlippage price side bps = .ok (price * (1 + bps / 10000 * (side : ℚ)))) ∧
    applySlippage 100 1 200 = .ok 102 ∧
    applySlippage 100 (-1) 200 = .ok 98 := by
  refine ⟨?_, by norm_num [applySlippage], by norm_num [applySlippage]⟩
  intro price side bps hp
  rw [applySlippage, if_neg (by exact not_le.mpr hp)]

/-- C6 witness: the general formula applied at price 100, side +1, 200 bps. -/
theorem C6_witness :
    applySlippage 100 1 200 = .ok (100 * (1 + 200 / 10000 * ((1 : ℤ) : ℚ))) :=
  C6_slippage_formula.1 100 1 200 (by norm_num)

/-- C8 counterexample: constructing a Portfolio with `initial_cash = 100`
and malformed risk-limit fractions (`max_position_pct = 2 ∉ (0,1]`,
`max_drawdown = 3 ∉ (0,1]`) succeeds — it does not fail, contrary to the
claim that malformed fractions are rejected at construction. -/
def uncheckedPortfolio : Portfolio :=
  { initial_cash := 100, cash := 100, position_qty := 0,
    limits := ⟨2, 3⟩, trades := [], equity_curve := [],
    peak_equity := 100, kill_switch := false }

theorem C8_counterexample :
    (∃ p : Portfolio, mkPortfolio 100 ⟨2, 3⟩ = .ok p ∧ p.limits = ⟨2, 3⟩) ∧
    ¬((2 : ℚ) ≤ 1) ∧ ¬((3 : ℚ) ≤ 1) := by
  refine ⟨⟨uncheckedPortfolio, ?_, rfl⟩, by norm_num, by norm_num⟩
  rw [mkPortfolio, if_neg (by norm_num)]
  rfl

/-- C8 (amended): construction fails exactly when `initial_cash ≤ 0`; the
risk-limit fractions are stored unvalidated, so for every `limits` record
(malformed or not) construction succeeds whenever `initial_cash > 0`. -/
theorem C8_construction_validation (c : ℚ) (limits : RiskLimits) :
    (c ≤ 0 → mkPortfolio c limits = .error "initial_cash must be > 0") ∧
    (0 < c → mkPortfolio c limits = .ok { initial_cash := c, cash := c, position_qty := 0, limits := limits, trades := [], equity_curve := [], peak_equity := c, kill_switch := false }) := by
  constructor
  · intro h
    rw [mkPortfolio, if_pos h]
  · intro h
    rw [mkPortfolio, if_neg (not_le.mpr h)]

/-- C8 witness: rejection at `initial_cash = 0` and success at
`initial_cash = 100` with out-of-range fractions. -/
theorem C8_witness :
    mkPortfolio 0 ⟨2, 3⟩ = .error "initial_cash must be > 0" ∧
    mkPortfolio 100 ⟨2, 3⟩ = .ok uncheckedPortfolio :=
  ⟨(C8_construction_validation 0 ⟨2, 3⟩).1 le_rfl,
   (C8_construction_validation 100 ⟨2, 3⟩).2 (by norm_num)⟩

/-- The trade record built in the BUY branch of `rebalance_to_target`. -/
def buyTrade (d : ℕ) (q : ℤ) (f c : ℚ) : Trade :=
  { date := d, side := .BUY, qty := q, price := f, notional := (q : ℚ) * f, commission := c }

/-- The trade record built in the SELL branch of `rebalance_to_target`. -/
def sellTrade (d : ℕ) (q : ℤ) (f c : ℚ) : Trade :=
  { date := d, side := .SELL, qty := q, price := f, notional := (q : ℚ) * f, commission := c }

/-- The portfolio state after an executed BUY of `q` shares at `f` with commission `c`. -/
def buyResult (p : Portfolio) (d : ℕ) (q : ℤ) (f c : ℚ) : Portfolio :=
  { p with
    cash := p.cash - ((q : ℚ) * f + c)
    position_qty := p.position_qty + q
    trades := p.trades ++ [buyTrade d q f c] }

/-- The portfolio state after an executed SELL of `q` shares at `f` with commission `c`. -/
def sellResult (p : Portfolio) (d : ℕ) (q : ℤ) (f c : ℚ) : Portfolio :=
  { p with
    cash := p.cash + (q : ℚ) * f - c
    position_qty := p.position_qty - q
    trades := p.trades ++ [sellTrade d q f c] }

/-- The delta computed inside `rebalance_to_target`. -/
def rebalanceDelta (p : Portfolio) (tp : ℤ) (o : ℚ) : ℤ :=
  (if tp = 1 then p.maxAllowedQty (p.cash + (p.position_qty : ℚ) * o) o else 0) -
    p.position_qty

theorem rebalance_eq_invalid (p : Portfolio) (d : ℕ) (tp : ℤ) (o f c : ℚ)
    (hk : p.kill_switch = false) (hv : tp ≠ 0 ∧ tp ≠ 1) :
    rebalanceToTarget p d tp o f c = .error "target_position must be 0 or 1 for long-only" := by
  simp only [rebalanceToTarget]
  rw [if_neg (by simp [hk]), if_pos hv]

theorem rebalance_eq_zero (p : Portfolio) (d : ℕ) (tp : ℤ) (o f c : ℚ)
    (hk : p.kill_switch = false) (hv : tp = 0 ∨ tp = 1)
    (hd : rebalanceDelta p tp o = 0) :
    rebalanceToTarget p d tp o f c = .ok (p, none) := by
  simp only [rebalanceToTarget]
  rw [if_neg (by simp [hk]), if_neg (by rcases hv with h | h <;> simp [h]),
    if_pos (by exact hd)]

theorem rebalance_eq_buy (p : Portfolio) (d : ℕ) (tp : ℤ) (o f c : ℚ)
    (hk : p.kill_switch = false) (hv : tp = 0 ∨ tp = 1)
    (hd : 0 < rebalanceDelta p tp o) :
    rebalanceToTarget p d tp o f c =
      if p.cash < (rebalanceDelta p tp o : ℚ) * f + c then
        if ⌊(p.cash - c) / f⌋ ≤ 0 then .ok (p, none)
        else .ok (buyResult p d ⌊(p.cash - c) / f⌋ f c,
                  some (buyTrade d ⌊(p.cash - c) / f⌋ f c))
      else .ok (buyResult p d (rebalanceDelta p tp o) f c,
                some (buyTrade d (rebalanceDelta p tp o) f c)) := by
  have hd' : 0 < (if tp = 1 then
      p.maxAllowedQty (p.cash + (p.position_qty : ℚ) * o) o else 0) - p.position_qty := hd
  simp only [rebalanceToTarget]
  rw [if_neg (by simp [hk]), if_neg (by rcases hv with h | h <;> simp [h]),
    if_neg (by omega), if_pos hd']
  rfl

theorem rebalance_eq_sell (p : Portfolio) (d : ℕ) (tp : ℤ) (o f c : ℚ)
    (hk : p.kill_switch = false) (hv : tp = 0 ∨ tp = 1)
    (hd : rebalanceDelta p tp o < 0) :
    rebalanceToTarget p d tp o f c =
      .ok (sellResult p d (-(rebalanceDelta p tp o)) f c,
           some (sellTrade d (-(rebalanceDelta p tp o)) f c)) := by
  have hd' : (if tp = 1 then
      p.maxAllowedQty (p.cash + (p.position_qty : ℚ) * o) o else 0) - p.position_qty < 0 := hd
  simp only [rebalanceToTarget]
  rw [if_neg (by simp [hk]), if_neg (by rcases hv with h | h <;> simp [h]),
    if_neg (by omega), if_neg (by omega)]
  rfl

/-- Concrete clamp scenario of the spec: cash 100, flat position,
`max_position_pct = 1`, so at open 20 the desired buy quantity is 5. -/
def cPort : Portfolio :=
  { initial_cash := 100, cash := 100, position_qty := 0,
    limits := { max_position_pct := 1, max_drawdown := 1/5 },
    trades := [], equity_curve := [], peak_equity := 100, kill_switch := false }

def cTradeRec : Trade :=
  { date := 0, side := Side.BUY, qty := 3, price := 30, notional := 90, commission := 1 }

def cAfter : Portfolio :=
  { cPort with
    cash := 9
    position_qty := 3
    trades := [cTradeRec] }

theorem cRebalance : rebalanceToTarget cPort 0 1 20 30 1 = .ok (cAfter, some cTradeRec) := by
  norm_num [rebalanceToTarget, Portfolio.maxAllowedQty, cPort, cAfter, cTradeRec]

/-- C3: starting from non-negative cash, with a positive fill price and a
non-negative commission, any call to `rebalance_to_target` that executes a
BUY trade leaves the cash balance non-negative (the buy quantity is
clamped to the affordable amount before the debit). -/
theorem C3_cash_nonneg_after_buy (p : Portfolio) (d : ℕ) (tp : ℤ) (o f c : ℚ)
    (p' : Portfolio) (tr : Trade)
    (hcash : 0 ≤ p.cash) (hf : 0 < f) (hc : 0 ≤ c)
    (h : rebalanceToTarget p d tp o f c = .ok (p', some tr))
    (hside : tr.side = Side.BUY) :
    0 ≤ p'.cash := by
  have hk : p.kill_switch = false := by
    cases hkb : p.kill_switch with
    | false => rfl
    | true =>
      rw [rebalance_of_kill p d tp o f c hkb] at h
      simp at h
  have hv : tp = 0 ∨ tp = 1 := by
    by_contra hnv
    push_neg at hnv
    rw [rebalance_eq_invalid p d tp o f c hk ⟨hnv.1, hnv.2⟩] at h
    exact Except.noConfusion h
  rcases lt_trichotomy (rebalanceDelta p tp o) 0 with hd | hd | hd
  · rw [rebalance_eq_sell p d tp o f c hk hv hd] at h
    rw [Except.ok.injEq, Prod.mk.injEq, Option.some_inj] at h
    rw [← h.2] at hside
    exact absurd hside (by simp [sellTrade])
  · rw [rebalance_eq_zero p d tp o f c hk hv hd] at h
    simp at h
  · rw [rebalance_eq_buy p d tp o f c hk hv hd] at h
    by_cases hb : p.cash < (rebalanceDelta p tp o : ℚ) * f + c
    · rw [if_pos hb] at h
      by_cases ha : ⌊(p.cash - c) / f⌋ ≤ 0
      · rw [if_pos ha] at h
        simp at h
      · rw [if_neg ha] at h
        rw [Except.ok.injEq, Prod.mk.injEq] at h
        rw [← h.1]
        have hfl : (⌊(p.cash - c) / f⌋ : ℚ) ≤ (p.cash - c) / f := Int.floor_le _
        have hmul : (⌊(p.cash - c) / f⌋ : ℚ) * f ≤ (p.cash - c) / f * f :=
          mul_le_mul_of_nonneg_right hfl (le_of_lt hf)
        rw [div_mul_cancel₀ _ (ne_of_gt hf)] at hmul
        show 0 ≤ p.cash - ((⌊(p.cash - c) / f⌋ : ℚ) * f + c)
        linarith
    · rw [if_neg hb] at h
      rw [Except.ok.injEq, Prod.mk.injEq] at h
      rw [← h.1]
      push_neg at hb
      show 0 ≤ p.cash - ((rebalanceDelta p tp o : ℚ) * f + c)
      linarith

/-- C3 witness: the clamp scenario's BUY leaves cash 9 ≥ 0. -/
theorem C3_witness : (0 : ℚ) ≤ cAfter.cash :=
  C3_cash_nonneg_after_buy cPort 0 1 20 30 1 cAfter cTradeRec
    (by norm_num [cPort]) (by norm_num) (by norm_num) cRebalance rfl

/-- C4: over-budget BUY: when the required cash `delta * fill + commission`
exceeds available cash, the executed quantity is clamped to
`floor((cash - commission)/fill_price)`; a non-positive clamped quantity
aborts with none and no state change, otherwise cash is debited by
`qty * fill + commission` and the position grows by the clamped quantity. -/
theorem C4_buy_affordability_clamp (p : Portfolio) (d : ℕ) (o f c : ℚ)
    (hk : p.kill_switch = false)
    (hd : 0 < rebalanceDelta p 1 o)
    (hover : p.cash < (rebalanceDelta p 1 o : ℚ) * f + c) :
    (⌊(p.cash - c) / f⌋ ≤ 0 → rebalanceToTarget p d 1 o f c = .ok (p, none)) ∧
    (0 < ⌊(p.cash - c) / f⌋ → rebalanceToTarget p d 1 o f c =
      .ok (buyResult p d ⌊(p.cash - c) / f⌋ f c,
           some (buyTrade d ⌊(p.cash - c) / f⌋ f c))) := by
  have hbuy := rebalance_eq_buy p d 1 o f c hk (Or.inr rfl) hd
  rw [if_pos hover] at hbuy
  constructor
  · intro ha
    rw [hbuy, if_pos ha]
  · intro ha
    rw [hbuy, if_neg (by omega)]

/-- C4 witness: cash=100, commission=1, fill=30, desired qty 5 (needs 151):
executed qty 3, resulting cash 100 − 90 − 1 = 9. -/
theorem C4_witness :
    rebalanceToTarget cPort 0 1 20 30 1 = .ok (cAfter, some cTradeRec) ∧
    cTradeRec.qty = 3 ∧ cAfter.cash = 9 ∧ cAfter.position_qty = 3 := by
  have hd : 0 < rebalanceDelta cPort 1 20 := by
    norm_num [rebalanceDelta, Portfolio.maxAllowedQty, cPort]
  have hover : cPort.cash < (rebalanceDelta cPort 1 20 : ℚ) * 30 + 1 := by
    norm_num [rebalanceDelta, Portfolio.maxAllowedQty, cPort]
  have h := (C4_buy_affordability_clamp cPort 0 20 30 1 rfl hd hover).2
    (by norm_num [cPort])
  have h3 : (⌊(cPort.cash - 1) / 30⌋ : ℤ) = 3 := by norm_num [cPort]
  rw [h3] at h
  refine ⟨?_, rfl, by norm_num [cAfter], by norm_num [cAfter, cPort]⟩
  rw [h]
  norm_num [buyResult, buyTrade, cPort, cAfter, cTradeRec]

/-- C9: the loop's inline sizing (src/run.py line 92) and the portfolio's
`_max_allowed_qty` sizing are the same floor computation, and consequently
the trade side the loop picks for the slippage direction (sign of its
delta) always matches the side of the trade `rebalance_to_target`
executes. -/
theorem C9_sizing_unified :
    (∀ (p : Portfolio) (equity price : ℚ),
      loopMaxQty p.limits equity price = p.maxAllowedQty equity price) ∧
    (∀ (p : Portfolio) (pt : ℤ) (d : ℕ) (o f c : ℚ) (p' : Portfolio) (tr : Trade),
      p.kill_switch = false → (pt = 0 ∨ pt = 1) →
      rebalanceToTarget p d pt o f c = .ok (p', some tr) →
      (0 < (if pt = 1 then loopMaxQty p.limits (p.cash + (p.position_qty : ℚ) * o) o
            else 0) - p.position_qty ↔ tr.side = Side.BUY)) := by
  refine ⟨fun p equity price => rfl, ?_⟩
  intro p pt d o f c p' tr hk hv h
  have hdelta : (if pt = 1 then loopMaxQty p.limits (p.cash + (p.position_qty : ℚ) * o) o
      else 0) - p.position_qty = rebalanceDelta p pt o := rfl
  rw [hdelta]
  constructor
  · intro hd
    rw [rebalance_eq_buy p d pt o f c hk hv hd] at h
    by_cases hb : p.cash < (rebalanceDelta p pt o : ℚ) * f + c
    · rw [if_pos hb] at h
      by_cases ha : ⌊(p.cash - c) / f⌋ ≤ 0
      · rw [if_pos ha] at h
        simp at h
      · rw [if_neg ha] at h
        rw [Except.ok.injEq, Prod.mk.injEq, Option.some_inj] at h
        rw [← h.2]
        rfl
    · rw [if_neg hb] at h
      rw [Except.ok.injEq, Prod.mk.injEq, Option.some_inj] at h
      rw [← h.2]
      rfl
  · intro hside
    rcases lt_trichotomy (rebalanceDelta p pt o) 0 with hd | hd | hd
    · rw [rebalance_eq_sell p d pt o f c hk hv hd] at h
      rw [Except.ok.injEq, Prod.mk.injEq, Option.some_inj] at h
      rw [← h.2] at hside
      exact absurd hside (by simp [sellTrade])
    · rw [rebalance_eq_zero p d pt o f c hk hv hd] at h
      simp at h
    · exact hd

/-- C9 witness: in the clamp scenario the loop's delta is positive and the
executed trade is indeed a BUY. -/
theorem C9_witness :
    0 < (if (1 : ℤ) = 1 then
        loopMaxQty cPort.limits (cPort.cash + (cPort.position_qty : ℚ) * 20) 20
      else 0) - cPort.position_qty ↔ cTradeRec.side = Side.BUY :=
  C9_sizing_unified.2 cPort 1 0 20 30 1 cAfter cTradeRec rfl (Or.inr rfl) cRebalance

/-- C7 counterexample: long/short mode with fast=1, slow=2 on the series
[1, 2].  On bar 0 the slow moving average is undefined (warm-up), yet the
generator outputs -1, not 0: the NaN comparison `fast_ma > slow_ma` is
False, `replace({0: -1})` turns that 0 into -1, and the tie-reset does not
fire because a NaN never compares equal. -/
theorem C7_counterexample :
    maAt [1, 2] 2 0 = none ∧
    (generateMACrossoverSignals [1, 2] ⟨1, 2⟩ false).get? 0 = some (-1) := by
  constructor
  · norm_num [maAt]
  · norm_num [generateMACrossoverSignals, List.range_succ, signalAt, maAt, pdGt, pdEq]

/-- C7 (amended): in long/short mode, on bars where both moving averages
are defined the target is +1 when fast > slow, -1 when fast < slow and 0
on an exact tie; but on bars where either moving average is undefined
(warm-up) the target is -1, not 0. -/
theorem C7_long_short_signals (closes : List ℚ) (params : MACrossoverParams)
    (i : ℕ) (hi : i < closes.length) :
    (generateMACrossoverSignals closes params false).get? i =
      some (signalAt false params closes i) ∧
    (∀ a b, maAt closes params.fast i = some a → maAt closes params.slow i = some b →
      signalAt false params closes i =
        if b < a then 1 else if a < b then -1 else 0) ∧
    ((maAt closes params.fast i = none ∨ maAt closes params.slow i = none) →
      signalAt false params closes i = -1) := by
  refine ⟨?_, ?_, ?_⟩
  · rw [generateMACrossoverSignals, List.get?_map, List.get?_range hi]
    rfl
  · intro a b hf hs
    simp only [signalAt, hf, hs, pdGt, pdEq, decide_eq_true_eq, Bool.false_eq_true,
      if_false]
    split_ifs <;>
      first
        | rfl
        | omega
        | linarith
        | (exact absurd (le_antisymm (le_of_not_lt (show ¬b < a by assumption))
            (le_of_not_lt (show ¬a < b by assumption))) (by assumption))
  · intro h
    rcases h with h | h
    · rw [signalAt, h]
      cases hs : maAt closes params.slow i <;> simp [pdGt, pdEq]
    · rw [signalAt, h]
      cases hf : maAt closes params.fast i <;> simp [pdGt, pdEq]

/-- C7 witness: on closes [1,2,3] with fast=1, slow=2 both averages are
defined at bar 1 (fast 2 > slow 3/2 gives +1), and at bar 0 the slow
average is undefined and the signal is -1. -/
theorem C7_witness :
    signalAt false ⟨1, 2⟩ [1, 2, 3] 1 = (if (3 : ℚ)/2 < 2 then 1 else if (2 : ℚ) < 3/2 then -1 else 0) ∧
    signalAt false ⟨1, 2⟩ [1, 2, 3] 0 = -1 := by
  constructor
  · exact (C7_long_short_signals [1, 2, 3] ⟨1, 2⟩ 1 (by norm_num)).2.1 2 (3/2)
      (by norm_num [maAt]) (by norm_num [maAt])
  · exact (C7_long_short_signals [1, 2, 3] ⟨1, 2⟩ 0 (by norm_num)).2.2
      (Or.inr (by norm_num [maAt]))

theorem mk_ok_start (c : ℚ) (l : RiskLimits) (p0 : Portfolio)
    (h : mkPortfolio c l = .ok p0) :
    p0.equity_curve = [] ∧ p0.trades = [] := by
  rw [mkPortfolio] at h
  split_ifs at h
  rw [Except.ok.injEq] at h
  subst h
  exact ⟨rfl, rfl⟩

/-- C1: the kill switch is sticky.  (i) While it is on, every call to
`rebalance_to_target` returns none with the state unchanged (in particular
cash and position_qty).  (ii) In every run from a freshly constructed
portfolio: once a snapshot records kill_switch = true, every later
snapshot also records true, and every logged trade happened on a bar
strictly before that snapshot's bar. -/
theorem C1_kill_switch_monotone :
    (∀ (p : Portfolio) (d : ℕ) (tp : ℤ) (o f c : ℚ), p.kill_switch = true →
      rebalanceToTarget p d tp o f c = .ok (p, none)) ∧
    (∀ (em : ExecutionModel) (limits : RiskLimits) (c : ℚ) (lims : RiskLimits)
      (p0 : Portfolio) (rows : List (Bar × Option ℤ)) (q : Portfolio) (pd' : Option ℤ),
      mkPortfolio c lims = .ok p0 →
      runPartial em limits p0 none 0 rows = .ok (q, pd') →
      (∀ (j k : ℕ) (sj sk : EquitySnapshot), j ≤ k →
        q.equity_curve.get? j = some sj → q.equity_curve.get? k = some sk →
        sj.killSwitch = true → sk.killSwitch = true) ∧
      (∀ (j : ℕ) (sj : EquitySnapshot), q.equity_curve.get? j = some sj →
        sj.killSwitch = true → ∀ t ∈ q.trades, t.date < sj.date)) := by
  constructor
  · exact fun p d tp o f c h => rebalance_of_kill p d tp o f c h
  · intro em limits c lims p0 rows q pd' hmk hrun
    obtain ⟨hcurve0, htrades0⟩ := mk_ok_start c lims p0 hmk
    obtain ⟨snaps, tns, hcurve, htrades, _, hidx, _, _⟩ :=
      runPartial_facts em limits rows p0 none 0 q pd' hrun
    rw [hcurve0] at hcurve
    rw [htrades0] at htrades
    rw [List.nil_append] at hcurve htrades
    constructor
    · intro j k sj sk hjk hj hk hkill
      rw [hcurve] at hj hk
      obtain ⟨_, _, hkc⟩ := hidx j sj hj
      exact (hkc hkill).2.1 k sk hjk hk
    · intro j sj hj hkill t ht
      rw [hcurve] at hj
      rw [htrades] at ht
      obtain ⟨hdate, _, hkc⟩ := hidx j sj hj
      have := (hkc hkill).2.2 t ht
      rw [hdate]
      omega

def wLims : RiskLimits := { max_position_pct := 1/4, max_drawdown := 1/5 }

def wP0 : Portfolio :=
  { initial_cash := 100, cash := 100, position_qty := 0, limits := wLims,
    trades := [], equity_curve := [], peak_equity := 100, kill_switch := false }

def wEm : ExecutionModel := { slippage_bps := 0, commission := 1 }

def wBar : Bar := { open_px := 10, close := 10 }

def wSnap : EquitySnapshot :=
  { date := 0, cash := 100, positionQty := 0, close := 10, equity := 100,
    drawdown := 0, killSwitch := false }

def wQ : Portfolio := { wP0 with equity_curve := [wSnap] }

theorem wMk : mkPortfolio 100 wLims = .ok wP0 := by
  rw [mkPortfolio, if_neg (by norm_num)]
  rfl

theorem wRun : runPartial wEm wLims wP0 none 0 [(wBar, some 0)] = .ok (wQ, some 0) := by
  rw [runPartial_cons]
  norm_num [runStep, runPartial_nil, markToMarket, wP0, wQ, wBar, wSnap, wLims]

/-- C1 witness: the one-bar run's recorded curve and trade log satisfy both
kill-switch clauses. -/
theorem C1_witness :
    (∀ (j k : ℕ) (sj sk : EquitySnapshot), j ≤ k →
      wQ.equity_curve.get? j = some sj → wQ.equity_curve.get? k = some sk →
      sj.killSwitch = true → sk.killSwitch = true) ∧
    (∀ (j : ℕ) (sj : EquitySnapshot), wQ.equity_curve.get? j = some sj →
      sj.killSwitch = true → ∀ t ∈ wQ.trades, t.date < sj.date) :=
  C1_kill_switch_monotone.2 wEm wLims 100 wLims wP0 [(wBar, some 0)] wQ (some 0) wMk wRun

/-- The portfolio produced by one loop iteration does not depend on the
bar's own signal value, which is only stored as the next pending target. -/
theorem runStep_map_fst (em : ExecutionModel) (limits : RiskLimits) (p : Portfolio)
    (pd : Option ℤ) (i : ℕ) (bar : Bar) (tgt tgt' : Option ℤ) :
    (runStep em limits p pd i bar tgt).map Prod.fst =
      (runStep em limits p pd i bar tgt').map Prod.fst := by
  unfold runStep
  cases pd with
  | none => rfl
  | some pt =>
    simp only
    set p1 := markToMarket p i bar.close with hp1
    by_cases hk : p1.kill_switch = true
    · simp only [if_pos hk]
      rfl
    · simp only [if_neg hk]
      set dq : ℤ := (if pt = 1 then
          loopMaxQty limits (p1.cash + (p1.position_qty : ℚ) * bar.open_px) bar.open_px
        else 0) - p1.position_qty with hdq
      by_cases hd : dq = 0
      · simp only [if_pos hd]
        rfl
      · simp only [if_neg hd]
        cases simulateFill bar.open_px (if 0 < dq then 1 else -1) |dq| em with
        | error e => rfl
        | ok fc =>
          obtain ⟨f1, c1⟩ := fc
          simp only
          cases rebalanceToTarget p1 i pt bar.open_px f1 c1 with
          | error e => rfl
          | ok pr =>
            obtain ⟨p2, tr⟩ := pr
            rfl

/-- C2: (i) a bar whose pending target is none (the first bar) only marks
to market and attempts no trade; (ii) after processing `t ≥ 1` bars the
pending target handed to bar `t` is exactly the signal the generator
produced for bar `t-1` (undefined mapped to 0); (iii) the signal value of
the final bar never influences the run's outcome — it is stored as a
pending target that is never executed. -/
theorem C2_one_bar_execution_lag :
    (∀ (em : ExecutionModel) (limits : RiskLimits) (p : Portfolio) (i : ℕ)
      (bar : Bar) (tgt : Option ℤ),
      runStep em limits p none i bar tgt =
        .ok (markToMarket p i bar.close, some (tgt.getD 0)) ∧
      (markToMarket p i bar.close).trades = p.trades) ∧
    (∀ (em : ExecutionModel) (limits : RiskLimits) (p0 : Portfolio)
      (rows : List (Bar × Option ℤ)) (t : ℕ) (q : Portfolio) (pd : Option ℤ),
      1 ≤ t → t ≤ rows.length →
      runPartial em limits p0 none 0 (rows.take t) = .ok (q, pd) →
      ∃ r : Bar × Option ℤ, rows.get? (t - 1) = some r ∧ pd = some ((r.2).getD 0)) ∧
    (∀ (em : ExecutionModel) (limits : RiskLimits) (p0 : Portfolio)
      (rows : List (Bar × Option ℤ)) (bar : Bar) (tgt tgt' : Option ℤ),
      runLoop em limits p0 (rows ++ [(bar, tgt)]) =
        runLoop em limits p0 (rows ++ [(bar, tgt')])) := by
  refine ⟨?_, ?_, ?_⟩
  · intro em limits p i bar tgt
    exact ⟨rfl, rfl⟩
  · intro em limits p0 rows t q pd h1 h2 hrun
    have hne : rows.take t ≠ [] := by
      intro hnil
      have hlen := congrArg List.length hnil
      rw [List.length_take] at hlen
      simp only [List.length_nil] at hlen
      omega
    obtain ⟨r, hlast, hpd⟩ :=
      runPartial_ok_pending em limits (rows.take t) p0 none 0 q pd hrun hne
    refine ⟨r, ?_, hpd⟩
    rw [List.getLast?_eq_get?, List.length_take, min_eq_left h2,
      List.get?_take (by omega)] at hlast
    exact hlast
  · intro em limits p0 rows bar tgt tgt'
    rw [runLoop, runLoop, runPartial_append, runPartial_append]
    cases runPartial em limits p0 none 0 rows with
    | error e => rfl
    | ok qpd =>
      obtain ⟨q, pd⟩ := qpd
      simp only
      rw [runPartial_cons, runPartial_cons]
      have hmap := runStep_map_fst em limits q pd (0 + rows.length) bar tgt tgt'
      cases hs : runStep em limits q pd (0 + rows.length) bar tgt with
      | error e =>
        rw [hs] at hmap
        cases hs' : runStep em limits q pd (0 + rows.length) bar tgt' with
        | error e' =>
          rw [hs'] at hmap
          dsimp only [Except.map] at hmap ⊢
          exact hmap
        | ok r' =>
          rw [hs'] at hmap
          obtain ⟨p1', pd1'⟩ := r'
          dsimp only [Except.map] at hmap
          exact Except.noConfusion hmap
      | ok r =>
        rw [hs] at hmap
        obtain ⟨p1, pd1⟩ := r
        cases hs' : runStep em limits q pd (0 + rows.length) bar tgt' with
        | error e' =>
          rw [hs'] at hmap
          dsimp only [Except.map] at hmap
          exact Except.noConfusion hmap
        | ok r' =>
          rw [hs'] at hmap
          obtain ⟨p1', pd1'⟩ := r'
          dsimp only [Except.map] at hmap
          rw [Except.ok.injEq] at hmap
          dsimp only [runPartial_nil, Except.map]
          rw [hmap]

def wBar2 : Bar := { open_px := 12, close := 11 }

def wSnap2 : EquitySnapshot :=
  { date := 1, cash := 100, positionQty := 0, close := 11, equity := 100,
    drawdown := 0, killSwitch := false }

def wQ2 : Portfolio := { wP0 with equity_curve := [wSnap, wSnap2] }

theorem wRun2 :
    runPartial wEm wLims wP0 none 0 [(wBar, some 0), (wBar2, some 0)] =
      .ok (wQ2, some 0) := by
  rw [runPartial_cons]
  norm_num [runStep, markToMarket, wP0, wBar, wLims]
  rw [runPartial_cons]
  norm_num [runStep, markToMarket, runPartial_nil, loopMaxQty, wP0, wBar, wBar2, wLims,
    wQ2, wSnap, wSnap2]

/-- C2 witness: in a two-bar run the pending target entering bar 1 is the
signal recorded for bar 0. -/
theorem C2_witness :
    ∃ r : Bar × Option ℤ, [(wBar, some 0), (wBar2, some 0)].get? (2 - 1) = some r ∧
      (some 0 : Option ℤ) = some ((r.2).getD 0) :=
  C2_one_bar_execution_lag.2.1 wEm wLims wP0 [(wBar, some 0), (wBar2, some 0)] 2 wQ2
    (some 0) (by norm_num) (by norm_num) wRun2

/-- C5: a run over n bars appends exactly one EquitySnapshot per bar — n in
total, in bar order with consecutive dates and that bar's close — and each
bar's snapshot records the cash and position of the state entering the bar,
i.e. it is taken by mark_to_market before any order for that bar executes. -/
theorem C5_one_snapshot_per_bar
    (em : ExecutionModel) (limits : RiskLimits) (c : ℚ) (lims : RiskLimits)
    (p0 q : Portfolio) (rows : List (Bar × Option ℤ)) (pd' : Option ℤ)
    (hmk : mkPortfolio c lims = .ok p0)
    (hrun : runPartial em limits p0 none 0 rows = .ok (q, pd')) :
    q.equity_curve.length = rows.length ∧
    ∀ j, j < rows.length →
      ∃ (pj : Portfolio) (pdj : Option ℤ) (r : Bar × Option ℤ) (s : EquitySnapshot),
        runPartial em limits p0 none 0 (rows.take j) = .ok (pj, pdj) ∧
        rows.get? j = some r ∧
        q.equity_curve.get? j = some s ∧
        s.date = j ∧ s.close = r.1.close ∧
        s.cash = pj.cash ∧ s.positionQty = pj.position_qty := by
  obtain ⟨hc0, ht0⟩ := mk_ok_start c lims p0 hmk
  constructor
  · obtain ⟨snaps, tns, hcurve, _, hlen, _, _, _⟩ :=
      runPartial_facts em limits rows p0 none 0 q pd' hrun
    rw [hcurve, hc0, List.nil_append, hlen]
  · intro j hj
    have hsplit : rows.take j ++ rows.drop j = rows := List.take_append_drop j rows
    rw [← hsplit, runPartial_append] at hrun
    cases hpre : runPartial em limits p0 none 0 (rows.take j) with
    | error e =>
      rw [hpre] at hrun
      exact Except.noConfusion hrun
    | ok pjd =>
      rw [hpre] at hrun
      obtain ⟨pj, pdj⟩ := pjd
      simp only at hrun
      have hlentake : (rows.take j).length = j := by
        rw [List.length_take]
        omega
      obtain ⟨snapsJ, _, hcurveJ, _, hlenJ, _, _, _⟩ :=
        runPartial_facts em limits (rows.take j) p0 none 0 pj pdj hpre
      have hpjlen : pj.equity_curve.length = j := by
        rw [hcurveJ, hc0, List.nil_append, hlenJ, hlentake]
      obtain ⟨r, rest, hdrop⟩ : ∃ r rest, rows.drop j = r :: rest := by
        cases hd : rows.drop j with
        | nil =>
          have hld : (rows.drop j).length = rows.length - j := List.length_drop j rows
          rw [hd] at hld
          simp only [List.length_nil] at hld
          omega
        | cons r rest => exact ⟨r, rest, rfl⟩
      rw [hdrop] at hrun
      obtain ⟨bar, tgt⟩ := r
      rw [runPartial_cons, hlentake] at hrun
      cases hstep : runStep em limits pj pdj (0 + j) bar tgt with
      | error e =>
        rw [hstep] at hrun
        exact Except.noConfusion hrun
      | ok pAd =>
        rw [hstep] at hrun
        obtain ⟨pA, pdA⟩ := pAd
        simp only at hrun
        obtain ⟨_, _, s, hcurveA, hsdate, hsclose, hscash, hspos, _, _, _, _⟩ :=
          runStep_ok_spec em limits pj pdj (0 + j) bar tgt pA pdA hstep
        obtain ⟨snaps', tns', hcurveQ, _, _, _, _, _⟩ :=
          runPartial_facts em limits rest pA pdA (0 + j + 1) q pd' hrun
        refine ⟨pj, pdj, (bar, tgt), s, rfl, ?_, ?_, by rw [hsdate]; omega,
          hsclose, hscash, hspos⟩
        · have hgd := List.get?_drop rows j 0
          rw [hdrop] at hgd
          simp only [List.get?_cons_zero] at hgd
          rw [Nat.add_zero] at hgd
          exact hgd.symm
        · rw [hcurveQ, hcurveA, List.append_assoc,
            List.get?_append_right (le_of_eq hpjlen), hpjlen]
          simp

/-- C5 witness: the one-bar run appends exactly one snapshot, carrying the
pre-trade cash and position. -/
theorem C5_witness :
    wQ.equity_curve.length = [((wBar : Bar), (some 0 : Option ℤ))].length ∧
    ∀ j, j < [((wBar : Bar), (some 0 : Option ℤ))].length →
      ∃ (pj : Portfolio) (pdj : Option ℤ) (r : Bar × Option ℤ) (s : EquitySnapshot),
        runPartial wEm wLims wP0 none 0 ([((wBar : Bar), (some 0 : Option ℤ))].take j) =
          .ok (pj, pdj) ∧
        [((wBar : Bar), (some 0 : Option ℤ))].get? j = some r ∧
        wQ.equity_curve.get? j = some s ∧
        s.date = j ∧ s.close = r.1.close ∧
        s.cash = pj.cash ∧ s.positionQty = pj.position_qty :=
  C5_one_snapshot_per_bar wEm wLims 100 wLims wP0 wQ [(wBar, some 0)] (some 0) wMk wRun

end Backtester
